import Mathlib

/-!
# Verification of the keras-recommenders sequential-retrieval example

Shallow embedding of `examples/sequential_retrieval.py` (data pipeline and
loss computation) and of `keras_rs/src/testing/test_case.py` (model-saving
round-trip test), with theorems settling the spec claims.

Machine integers of the source are modelled as `Nat`/`Int` (ids and
timestamps are non-negative integers in the data, ratings are integers after
the `min_rating` filter). Configuration globals (`MAX_CONTEXT_LENGTH`,
`MIN_SEQUENCE_LENGTH`) are passed as explicit parameters so that claims about
other configured values can be stated; the source's values are the constants
below.
-/

namespace SeqRetrieval

/-- `MAX_CONTEXT_LENGTH = 10` from the source. -/
def MAX_CONTEXT_LENGTH : Nat := 10

/-- `MIN_SEQUENCE_LENGTH = 3` from the source. -/
def MIN_SEQUENCE_LENGTH : Nat := 3

/-- One row of the ratings dataframe: `(UserID, MovieID, Rating, Timestamp)`. -/
structure Rating where
  user_id : Nat
  movie_id : Nat
  rating : Int
  timestamp : Nat
  deriving Repr, DecidableEq

/-- One element of a user sequence: the dict
`{"movie_id": ..., "timestamp": ..., "rating": ...}` built in
`get_movie_sequence_per_user`. -/
structure Interaction where
  movie_id : Nat
  timestamp : Nat
  rating : Int
  deriving Repr, DecidableEq

/-- The dict appended for one dataframe row in `get_movie_sequence_per_user`. -/
def toInteraction (r : Rating) : Interaction :=
  { movie_id := r.movie_id, timestamp := r.timestamp, rating := r.rating }

/-- The padding dict appended in the `while` loop of
`generate_examples_from_user_sequence`:
`{"movie_id": 0, "timestamp": 0, "rating": 0.0}`. -/
def padEntry : Interaction := { movie_id := 0, timestamp := 0, rating := 0 }

/-- One generated training example:
`{"context_movie_id": ..., "label_movie_id": ...}`. -/
structure Example where
  context_movie_id : List Nat
  label_movie_id : Nat
  deriving Repr, DecidableEq

/-- Iterations of the `context.append(padEntry)` loop body, structurally
recursive on the number of remaining iterations. -/
def padLoop : Nat → List Interaction → List Interaction
  | 0, context => context
  | n + 1, context => padLoop n (context ++ [padEntry])

/-- The `while len(context) < MAX_CONTEXT_LENGTH: context.append(padEntry)`
loop, parameterised by the window length `L`: the loop runs until the length
reaches `L`, i.e. for `L - len(context)` iterations. `padContext_while` below
shows this definition satisfies the while-loop unfolding equation. -/
def padContext (L : Nat) (context : List Interaction) : List Interaction :=
  padLoop (L - context.length) context

/-- The body of the `for label_idx in range(1, len(sequence))` loop of
`generate_examples_from_user_sequence`: slice
`sequence[start_idx:label_idx]` with `start_idx = max(0, label_idx - L)`,
pad, and read off the movie ids and the label. -/
def exampleAt (L : Nat) (sequence : List Interaction) (label_idx : Nat) :
    Example :=
  let start_idx := max 0 (label_idx - L)
  let context := (sequence.take label_idx).drop start_idx
  let context := padContext L context
  { context_movie_id := context.map (·.movie_id)
    label_movie_id := (sequence.getD label_idx padEntry).movie_id }

/-- `generate_examples_from_user_sequence`: one example per
`label_idx in range(1, len(sequence))`. -/
def generate_examples_from_user_sequence (L : Nat)
    (sequence : List Interaction) : List Example :=
  (List.range' 1 (sequence.length - 1)).map (exampleAt L sequence)

/-- `generate_examples_from_user_sequences`: iterate over the users'
sequences, skip those shorter than `minLen`, extend the accumulator with the
user's examples. The insertion-ordered dict of the source is modelled as an
association list. -/
def generate_examples_from_user_sequences (L minLen : Nat)
    (sequences : List (Nat × List Interaction)) : List Example :=
  sequences.foldl
    (fun all_examples p =>
      if p.2.length < minLen then all_examples
      else all_examples ++ generate_examples_from_user_sequence L p.2)
    []

/-- `sequences[user_id].append(x)` with `collections.defaultdict(list)`
semantics: the insertion-ordered dict is modelled as an association list;
append to the user's entry, creating it at the end on first touch. -/
def appendToUser (seqs : List (Nat × List Interaction)) (u : Nat)
    (x : Interaction) : List (Nat × List Interaction) :=
  match seqs with
  | [] => [(u, [x])]
  | (v, l) :: rest =>
    if v = u then (v, l ++ [x]) :: rest
    else (v, l) :: appendToUser rest u x

/-- First loop of `get_movie_sequence_per_user`: one `append` per dataframe
row, in row order. -/
def buildSequences (rows : List Rating) : List (Nat × List Interaction) :=
  rows.foldl (fun seqs r => appendToUser seqs r.user_id (toInteraction r)) []

/-- Comparison used by `context.sort(key=lambda x: x["timestamp"])`. -/
def tsLE (a b : Interaction) : Bool := a.timestamp ≤ b.timestamp

/-- `context.sort(key=lambda x: x["timestamp"])`: Python's `list.sort` is a
stable sort; it is modelled by the stable `List.mergeSort`. -/
def sortByTimestamp (context : List Interaction) : List Interaction :=
  context.mergeSort tsLE

/-- `get_movie_sequence_per_user`: build the per-user sequences, then sort
every user's sequence by timestamp. -/
def get_movie_sequence_per_user (rows : List Rating) :
    List (Nat × List Interaction) :=
  (buildSequences rows).map (fun p => (p.1, sortByTimestamp p.2))

/-- Accessor on the association list: the sequence stored for user `u`, or
`[]` when the user has no entry. -/
def userSeq (seqs : List (Nat × List Interaction)) (u : Nat) :
    List Interaction :=
  match seqs.find? (fun p => p.1 == u) with
  | some p => p.2
  | none => []

/-! ### The loss computation of `SequentialRetrievalModel`

Embeddings are exact rationals; the embedding table of the candidate tower
(`self.candidate_model`, an external layer) and the loss function
(`self.loss_fn`, `keras.losses.CategoricalCrossentropy`) are abstract
parameters — the claim is about which matrices `compute_loss` builds and
passes to the loss, not about their numeric values. -/

/-- `keras.ops.eye(num_queries, num_candidates)`. -/
def eyeMatrix (N M : Nat) : Matrix (Fin N) (Fin M) ℚ :=
  Matrix.of fun i j => if (i : Nat) = (j : Nat) then 1 else 0

/-- `ops.matmul(query_embeddings, candidate_embeddings.T)`: rows of `Q`
against rows of `C`. -/
def matmulT {N M D : Nat} (Q : Matrix (Fin N) (Fin D) ℚ)
    (C : Matrix (Fin M) (Fin D) ℚ) : Matrix (Fin N) (Fin M) ℚ :=
  Matrix.of fun i j => Finset.univ.sum fun k => Q i k * C j k

/-- `SequentialRetrievalModel.compute_loss`: `y` holds the batch's label
movie ids, `y_pred` the query embeddings (one row per example); candidate
embeddings are looked up row-wise (`self.candidate_model(candidate_id)`),
the label matrix is `ops.eye(num_queries, num_candidates)`, the scores are
the matmul against the transposed candidate embeddings, and the result is
`self.loss_fn(labels, scores, sample_weight)`. -/
def compute_loss {N D : Nat} {W : Type}
    (loss_fn :
      Matrix (Fin N) (Fin N) ℚ → Matrix (Fin N) (Fin N) ℚ → W → ℚ)
    (candidate_model : Nat → Fin D → ℚ)
    (y : Fin N → Nat)
    (query_embeddings : Matrix (Fin N) (Fin D) ℚ)
    (sample_weight : W) : ℚ :=
  let candidate_id := y
  let candidate_embeddings : Matrix (Fin N) (Fin D) ℚ :=
    Matrix.of fun i => candidate_model (candidate_id i)
  let labels := eyeMatrix N N
  let scores := matmulT query_embeddings candidate_embeddings
  loss_fn labels scores sample_weight

/-! ### The model-saving round-trip test of `TestCase`

Modelled from the spec: `model.save(path, save_format="keras_v3")` and
`keras.models.load_model(path)` are external capabilities (the spec treats
model (de)serialization as an opaque capability with a round-trip
contract); they are abstracted as a pair of functions between models and
single-file archives, and a model's forward pass as an abstract `call`
producing a flat tensor of exact rationals. -/

structure Serializer (Model Archive : Type) where
  save : Model → Archive
  load : Archive → Model

/-- `np.testing.assert_allclose(actual, desired, atol, rtol)` on flat
tensors: shapes match and elementwise
`|actual - desired| <= atol + rtol * |desired|`. -/
def assertAllClose (atol rtol : ℚ) (actual desired : List ℚ) : Bool :=
  actual.length == desired.length
    && (List.zip actual desired).all
        (fun p => decide (|p.1 - p.2| ≤ atol + rtol * |p.2|))

/-- `TestCase.run_model_saving_test`: construct `cls(**init_kwargs)`, run it
on `input_data`, save to an archive, reload, run the restored model on the
same input and assert the outputs are allclose with the default
`atol = rtol = 1e-6`. -/
def run_model_saving_test {Model Archive Kwargs Input : Type}
    (call : Model → Input → List ℚ) (ser : Serializer Model Archive)
    (cls : Kwargs → Model) (init_kwargs : Kwargs)
    (input_data : Input) : Bool :=
  let model := cls init_kwargs
  let model_output := call model input_data
  let restored_model := ser.load (ser.save model)
  let restored_output := call restored_model input_data
  assertAllClose (1 / 1000000) (1 / 1000000) model_output restored_output

/-! ### Mutable-list model of the example generator

Claim C10 is about Python aliasing: `sequence[start_idx:label_idx]` makes a
fresh list object and the `while` loop appends to that copy only, so the
input lists are untouched. To settle it, the generator is re-run over an
explicit store of list objects addressed by references. -/

/-- Store of Python list objects: values of all references, plus the next
fresh reference. -/
structure Heap where
  mem : Nat → List Interaction
  next : Nat

/-- Allocate a fresh list object holding `v`, returning its reference. -/
def Heap.alloc (h : Heap) (v : List Interaction) : Heap × Nat :=
  (⟨fun r => if r = h.next then v else h.mem r, h.next + 1⟩, h.next)

/-- In-place update of the list object behind `r`. -/
def Heap.write (h : Heap) (r : Nat) (v : List Interaction) : Heap :=
  ⟨fun x => if x = r then v else h.mem x, h.next⟩

/-- Read the list object behind `r`. -/
def Heap.read (h : Heap) (r : Nat) : List Interaction := h.mem r

/-- Iterations of `context.append(padEntry)` as in-place writes to the
context object. -/
def padLoopSt : Nat → Heap → Nat → Heap
  | 0, h, _ => h
  | n + 1, h, r => padLoopSt n (h.write r (h.read r ++ [padEntry])) r

/-- The padding `while` loop on the context object behind `r`: runs for
`L - len(context)` iterations, mutating only that object. -/
def padContextSt (L : Nat) (h : Heap) (r : Nat) : Heap :=
  padLoopSt (L - (h.read r).length) h r

/-- Loop body of `generate_examples_from_user_sequence` over the store:
`sequence[start_idx:label_idx]` allocates a fresh list object, the padding
loop mutates only that object, and the example is read off it. -/
def exampleSt (L : Nat) (h : Heap) (r : Nat) (label_idx : Nat) :
    Heap × Example :=
  let sequence := h.read r
  let start_idx := max 0 (label_idx - L)
  let alloced := h.alloc ((sequence.take label_idx).drop start_idx)
  let h2 := padContextSt L alloced.1 alloced.2
  (h2,
    { context_movie_id := (h2.read alloced.2).map (·.movie_id)
      label_movie_id := (sequence.getD label_idx padEntry).movie_id })

/-- Loop step of `generate_examples_from_user_sequence` over the store. -/
def genLoopBody (L r : Nat) (acc : Heap × List Example) (label_idx : Nat) :
    Heap × List Example :=
  let he := exampleSt L acc.1 r label_idx
  (he.1, acc.2 ++ [he.2])

/-- `generate_examples_from_user_sequence` over the store: the user's
sequence is a list object behind `r`. -/
def generate_examples_from_user_sequence_st (L : Nat) (h : Heap) (r : Nat) :
    Heap × List Example :=
  (List.range' 1 ((h.read r).length - 1)).foldl (genLoopBody L r) (h, [])

/-- Loop step of `generate_examples_from_user_sequences` over the store. -/
def genUsersBody (L minLen : Nat) (acc : Heap × List Example)
    (p : Nat × Nat) : Heap × List Example :=
  if (acc.1.read p.2).length < minLen then acc
  else
    let he := generate_examples_from_user_sequence_st L acc.1 p.2
    (he.1, acc.2 ++ he.2)

/-- `generate_examples_from_user_sequences` over the store: `sequences` maps
each user id to the reference of their sequence object. -/
def generate_examples_from_user_sequences_st (L minLen : Nat) (h : Heap)
    (sequences : List (Nat × Nat)) : Heap × List Example :=
  sequences.foldl (genUsersBody L minLen) (h, [])

/-- Concrete 4-interaction user sequence (ids 1..4, increasing timestamps),
used as the test input of several claims. -/
def seqABCD : List Interaction :=
  [⟨1, 1, 1⟩, ⟨2, 2, 1⟩, ⟨3, 3, 1⟩, ⟨4, 4, 1⟩]

/-- Concrete 3-interaction user sequence. -/
def seqABC : List Interaction := [⟨1, 1, 1⟩, ⟨2, 2, 1⟩, ⟨3, 3, 1⟩]

/-- Concrete 2-interaction user sequence (below the minimum length 3). -/
def seqAB : List Interaction := [⟨5, 1, 1⟩, ⟨6, 2, 1⟩]

/-! ### Basic lemmas about the pipeline -/

/-- `padContext` satisfies exactly the recurrence of the source's `while`
loop: if the context is shorter than `L`, append one padding entry and
continue, else stop. -/
theorem padContext_while (L : Nat) (context : List Interaction) :
    padContext L context =
      if context.length < L then padContext L (context ++ [padEntry])
      else context := by
  unfold padContext
  by_cases h : context.length < L
  · have h1 : L - context.length = (L - (context ++ [padEntry]).length) + 1 := by
      simp only [List.length_append, List.length_singleton]
      omega
    rw [h1]
    simp [padLoop, h]
  · have h0 : L - context.length = 0 := by omega
    simp [h0, padLoop, h]

theorem padLoop_eq_append (n : Nat) (c : List Interaction) :
    padLoop n c = c ++ List.replicate n padEntry := by
  induction n generalizing c with
  | zero => simp [padLoop]
  | succ n ih =>
    rw [padLoop, ih, List.replicate_succ]
    simp

theorem padContext_eq_append (L : Nat) (c : List Interaction) :
    padContext L c = c ++ List.replicate (L - c.length) padEntry :=
  padLoop_eq_append _ _

theorem length_padContext (L : Nat) (c : List Interaction) :
    (padContext L c).length = max L c.length := by
  rw [padContext_eq_append]
  simp only [List.length_append, List.length_replicate]
  omega

theorem length_generate_examples_from_user_sequence (L : Nat)
    (sequence : List Interaction) :
    (generate_examples_from_user_sequence L sequence).length
      = sequence.length - 1 := by
  simp [generate_examples_from_user_sequence]

/-- The fold in `generate_examples_from_user_sequences` distributes over its
accumulator. -/
theorem generate_examples_foldl_acc (L minLen : Nat)
    (sequences : List (Nat × List Interaction)) (acc : List Example) :
    sequences.foldl
      (fun all_examples p =>
        if p.2.length < minLen then all_examples
        else all_examples ++ generate_examples_from_user_sequence L p.2)
      acc
    = acc ++ generate_examples_from_user_sequences L minLen sequences := by
  induction sequences generalizing acc with
  | nil => simp [generate_examples_from_user_sequences]
  | cons p ps ih =>
    simp only [generate_examples_from_user_sequences, List.foldl_cons]
    rw [ih, ih]
    by_cases h : p.2.length < minLen <;> simp [h]

/-- `generate_examples_from_user_sequences` is the concatenation of the
per-user outputs over users meeting the minimum length. -/
theorem generate_examples_from_user_sequences_eq (L minLen : Nat)
    (sequences : List (Nat × List Interaction)) :
    generate_examples_from_user_sequences L minLen sequences
      = (sequences.filter (fun p => minLen ≤ p.2.length)).flatMap
          (fun p => generate_examples_from_user_sequence L p.2) := by
  induction sequences with
  | nil => simp [generate_examples_from_user_sequences]
  | cons p ps ih =>
    simp only [generate_examples_from_user_sequences, List.foldl_cons] at ih ⊢
    rw [generate_examples_foldl_acc]
    simp only [generate_examples_from_user_sequences]
    by_cases h : p.2.length < minLen
    · have h' : ¬ minLen ≤ p.2.length := by omega
      simp [h, h', ih, List.filter_cons]
    · have h' : minLen ≤ p.2.length := by omega
      simp [h, h', ih, List.filter_cons]

/-- Closed form of one generated example's context: the movie ids of the
slice `sequence[start_idx:label_idx]` followed by zeros filling up to `L`. -/
theorem exampleAt_context (L : Nat) (sequence : List Interaction) (i : Nat) :
    (exampleAt L sequence i).context_movie_id
      = ((sequence.take i).drop (max 0 (i - L))).map (·.movie_id)
        ++ List.replicate
            (L - ((sequence.take i).drop (max 0 (i - L))).length) 0 := by
  unfold exampleAt
  simp only [padContext_eq_append, List.map_append, List.map_replicate]
  rfl

/-- The example at index `i - 1` of the generated list is the one produced
for `label_idx = i`. -/
theorem generate_examples_getD (L : Nat) (sequence : List Interaction)
    (i : Nat) (h1 : 1 ≤ i) (h2 : i < sequence.length) (d : Example) :
    (generate_examples_from_user_sequence L sequence).getD (i - 1) d
      = exampleAt L sequence i := by
  unfold generate_examples_from_user_sequence
  have hlen : i - 1 < (List.range' 1 (sequence.length - 1)).length := by
    simp only [List.length_range']
    omega
  rw [List.getD_eq_getElem _ _ (by simpa using hlen)]
  rw [List.getElem_map]
  congr 1
  rw [List.getElem_range']
  omega

/-- Every element of the per-user output is `exampleAt` at some position
`i` with `1 ≤ i < sequence.length`. -/
theorem mem_generate_examples (L : Nat) (sequence : List Interaction)
    (e : Example) (he : e ∈ generate_examples_from_user_sequence L sequence) :
    ∃ i, 1 ≤ i ∧ i < sequence.length ∧ e = exampleAt L sequence i := by
  unfold generate_examples_from_user_sequence at he
  obtain ⟨i, hi, rfl⟩ := List.mem_map.mp he
  rw [List.mem_range'_1] at hi
  exact ⟨i, hi.1, by omega, rfl⟩

/-- Length of the real (unpadded) slice of the context at position `i`. -/
theorem slice_length (sequence : List Interaction) (L i : Nat)
    (h : i ≤ sequence.length) :
    ((sequence.take i).drop (max 0 (i - L))).length = min i L := by
  simp only [List.length_drop, List.length_take]
  omega

/-! ### Claim theorems for the sequence builder -/

/-- Claim C1, counterexample: the claim asserts left-padding, with examples
`([0,0,A],B), ([0,A,B],C), ([A,B,C],D)` for a user with items `[A,B,C,D]`
(here `A,B,C,D = 1,2,3,4`) at increasing timestamps, window length 3 and
minimum sequence length 3. The code appends padding after the real items, so
the generated examples are `([1,0,0],2), ([1,2,0],3), ([1,2,3],4)` — not the
claimed list, and the padding is not a prefix. -/
theorem claim_C1_counterexample :
    generate_examples_from_user_sequences 3 3
        [(1, [⟨1, 1, 1⟩, ⟨2, 2, 1⟩, ⟨3, 3, 1⟩, ⟨4, 4, 1⟩])]
      = [⟨[1, 0, 0], 2⟩, ⟨[1, 2, 0], 3⟩, ⟨[1, 2, 3], 4⟩]
    ∧ ¬ (generate_examples_from_user_sequences 3 3
        [(1, [⟨1, 1, 1⟩, ⟨2, 2, 1⟩, ⟨3, 3, 1⟩, ⟨4, 4, 1⟩])]
      = [⟨[0, 0, 1], 2⟩, ⟨[0, 1, 2], 3⟩, ⟨[1, 2, 3], 4⟩]) := by
  decide

/-- Claim C1, amended: for every generated training example, padding entries
(sentinel movie id 0) appear only as a suffix of the context sequence
(right-padding), never interleaved with or preceding real items: the context
is the real slice's movie ids followed by zeros. In particular, for one user
with items `[A,B,C,D] = [1,2,3,4]` at increasing timestamps, window length 3
and minimum sequence length 3, the three generated examples are
`([A,0,0],B), ([A,B,0],C), ([A,B,C],D)`. -/
theorem claim_C1 :
    (∀ (L : Nat) (sequence : List Interaction) (i : Nat),
      (exampleAt L sequence i).context_movie_id
        = ((sequence.take i).drop (max 0 (i - L))).map (·.movie_id)
          ++ List.replicate
              (L - ((sequence.take i).drop (max 0 (i - L))).length) 0)
    ∧ generate_examples_from_user_sequences 3 3
        [(1, [⟨1, 1, 1⟩, ⟨2, 2, 1⟩, ⟨3, 3, 1⟩, ⟨4, 4, 1⟩])]
      = [⟨[1, 0, 0], 2⟩, ⟨[1, 2, 0], 3⟩, ⟨[1, 2, 3], 4⟩] :=
  ⟨exampleAt_context, by decide⟩

/-- Claim C3: every user whose sequence has length `n ≥ minLen` contributes
exactly `n - 1` examples, and the total number of generated examples is the
sum of `n - 1` over qualifying users (others contribute 0). -/
theorem claim_C3 (L minLen : Nat)
    (sequences : List (Nat × List Interaction)) :
    (∀ s : List Interaction,
      (generate_examples_from_user_sequence L s).length = s.length - 1)
    ∧ (generate_examples_from_user_sequences L minLen sequences).length
        = (sequences.map
            (fun p => if minLen ≤ p.2.length then p.2.length - 1 else 0)).sum := by
  refine ⟨fun s => length_generate_examples_from_user_sequence L s, ?_⟩
  rw [generate_examples_from_user_sequences_eq]
  induction sequences with
  | nil => simp
  | cons p ps ih =>
    by_cases h : minLen ≤ p.2.length
    · simp [List.filter_cons, h, length_generate_examples_from_user_sequence,
        ih]
    · simp [List.filter_cons, h, ih]

/-- Claim C4: for the example generated at split position `i`, the real
(non-padding) part of the context equals the movie ids of the slice of at
most `L` interactions immediately preceding position `i`, that slice has
length at most `L`, and the label is the movie id of the interaction at
position `i` itself. -/
theorem claim_C4 (L : Nat) (sequence : List Interaction) (i : Nat)
    (h1 : 1 ≤ i) (h2 : i < sequence.length) :
    (((generate_examples_from_user_sequence L sequence).getD (i - 1)
          ⟨[], 0⟩).context_movie_id.take
        (((sequence.take i).drop (max 0 (i - L))).length)
      = ((sequence.take i).drop (max 0 (i - L))).map (·.movie_id))
    ∧ ((sequence.take i).drop (max 0 (i - L))).length ≤ L
    ∧ ((generate_examples_from_user_sequence L sequence).getD (i - 1)
          ⟨[], 0⟩).label_movie_id
        = (sequence.getD i padEntry).movie_id := by
  rw [generate_examples_getD L sequence i h1 h2]
  have hlen : ((sequence.take i).drop (max 0 (i - L))).length = min i L :=
    slice_length sequence L i (by omega)
  refine ⟨?_, by omega, rfl⟩
  rw [exampleAt_context]
  exact List.take_left' (by simp)

/-- Claim C4, witness at `L = 3`, the `seqABCD` sequence, `i = 2`. -/
theorem claim_C4_witness :
    (((generate_examples_from_user_sequence 3 seqABCD).getD (2 - 1)
          ⟨[], 0⟩).context_movie_id.take
        (((seqABCD.take 2).drop (max 0 (2 - 3))).length)
      = ((seqABCD.take 2).drop (max 0 (2 - 3))).map (·.movie_id))
    ∧ ((seqABCD.take 2).drop (max 0 (2 - 3))).length ≤ 3
    ∧ ((generate_examples_from_user_sequence 3 seqABCD).getD (2 - 1)
          ⟨[], 0⟩).label_movie_id
        = (seqABCD.getD 2 padEntry).movie_id :=
  claim_C4 3 seqABCD 2 (by decide) (by decide)

/-- Claim C5: every example generated with the configured
`MAX_CONTEXT_LENGTH = 10` has a context of length exactly 10: the slice of
history is never longer than the window, and shorter histories are filled
with sentinel entries `{movie_id 0, timestamp 0, rating 0}` up to the window
length. -/
theorem claim_C5 :
    (∀ (sequence : List Interaction) (e : Example),
      e ∈ generate_examples_from_user_sequence MAX_CONTEXT_LENGTH sequence →
      e.context_movie_id.length = MAX_CONTEXT_LENGTH)
    ∧ (∀ c : List Interaction,
        padContext MAX_CONTEXT_LENGTH c
          = c ++ List.replicate (MAX_CONTEXT_LENGTH - c.length)
              { movie_id := 0, timestamp := 0, rating := 0 }) := by
  constructor
  · intro sequence e he
    obtain ⟨i, hi1, hi2, rfl⟩ :=
      mem_generate_examples MAX_CONTEXT_LENGTH sequence e he
    rw [exampleAt_context]
    have hlen := slice_length sequence MAX_CONTEXT_LENGTH i (by omega)
    simp only [List.length_append, List.length_map, List.length_replicate,
      hlen]
    omega
  · intro c
    exact padContext_eq_append MAX_CONTEXT_LENGTH c

/-- Claim C5, witness: a user sequence of length 3 (shorter than the window)
whose first example's context has length exactly 10. -/
theorem claim_C5_witness :
    (⟨[1, 0, 0, 0, 0, 0, 0, 0, 0, 0], 2⟩ : Example).context_movie_id.length
      = MAX_CONTEXT_LENGTH :=
  claim_C5.1 seqABC ⟨[1, 0, 0, 0, 0, 0, 0, 0, 0, 0], 2⟩ (by decide)

/-- Claim C6: a user whose sequence is shorter than the minimum length
contributes zero examples — removing such a user from anywhere in the input
leaves the output of `generate_examples_from_user_sequences` unchanged. -/
theorem claim_C6 (L minLen : Nat) (u : Nat) (s : List Interaction)
    (pre post : List (Nat × List Interaction)) (h : s.length < minLen) :
    generate_examples_from_user_sequences L minLen (pre ++ (u, s) :: post)
      = generate_examples_from_user_sequences L minLen (pre ++ post) := by
  rw [generate_examples_from_user_sequences_eq,
    generate_examples_from_user_sequences_eq]
  have h' : ¬ minLen ≤ s.length := by omega
  simp [List.filter_append, List.filter_cons, h']

/-- Claim C6, witness: a user with a 2-element sequence (below the minimum
of 3) contributes nothing next to a 3-element user. -/
theorem claim_C6_witness :
    generate_examples_from_user_sequences 10 3
        ([] ++ (7, seqAB) :: [(1, seqABC)])
      = generate_examples_from_user_sequences 10 3 ([] ++ [(1, seqABC)]) :=
  claim_C6 10 3 7 seqAB [] [(1, seqABC)] (by decide)

/-- Claim C9: with a window length of 0 the generator performs no validation
and raises no error (it is a total function): every generated example has an
empty context. With a minimum sequence length of 0 (smaller than 1) no user
is skipped: the output is the concatenation of every user's examples. -/
theorem claim_C9 (minLen : Nat) (sequences : List (Nat × List Interaction)) :
    (∀ e ∈ generate_examples_from_user_sequences 0 minLen sequences,
      e.context_movie_id = [])
    ∧ (∀ L : Nat,
        generate_examples_from_user_sequences L 0 sequences
          = sequences.flatMap
              (fun p => generate_examples_from_user_sequence L p.2)) := by
  constructor
  · intro e he
    rw [generate_examples_from_user_sequences_eq] at he
    obtain ⟨p, _, hp⟩ := List.mem_flatMap.mp he
    obtain ⟨i, hi1, hi2, rfl⟩ := mem_generate_examples 0 p.2 e hp
    rw [exampleAt_context]
    have : max 0 (i - 0) = i := by omega
    simp [this]
  · intro L
    rw [generate_examples_from_user_sequences_eq]
    congr 1
    apply List.filter_eq_self.mpr
    intro p _
    simp

/-- Claim C9, witness: window length 0 on a 4-element user yields examples,
the first of which has an empty context; minimum length 0 skips nobody. -/
theorem claim_C9_witness :
    ((⟨[], 2⟩ : Example).context_movie_id = [])
    ∧ (generate_examples_from_user_sequences 5 0 [(1, seqAB)]
        = [(1, seqAB)].flatMap
            (fun p => generate_examples_from_user_sequence 5 p.2)) :=
  ⟨(claim_C9 3 [(1, seqABCD)]).1 ⟨[], 2⟩ (by decide),
    (claim_C9 0 [(1, seqAB)]).2 5⟩

/-! ### Lemmas about `get_movie_sequence_per_user` -/

theorem userSeq_nil (u : Nat) : userSeq [] u = [] := rfl

theorem userSeq_cons (v : Nat) (l : List Interaction)
    (rest : List (Nat × List Interaction)) (u : Nat) :
    userSeq ((v, l) :: rest) u = if v = u then l else userSeq rest u := by
  by_cases h : v = u
  · simp [userSeq, List.find?, h]
  · simp only [userSeq, List.find?]
    have : ((v, l).1 == u) = false := by simpa using h
    simp [this, h]

theorem userSeq_appendToUser (seqs : List (Nat × List Interaction))
    (v u : Nat) (x : Interaction) :
    userSeq (appendToUser seqs v x) u
      = if v = u then userSeq seqs u ++ [x] else userSeq seqs u := by
  induction seqs with
  | nil =>
    by_cases h : v = u <;> simp [appendToUser, userSeq_cons, userSeq_nil, h]
  | cons p ps ih =>
    obtain ⟨w, l⟩ := p
    by_cases hw : w = v
    · subst hw
      by_cases h : w = u <;> simp [appendToUser, userSeq_cons, h]
    · by_cases h : w = u
      · have hvu : ¬ v = u := by rw [← h]; exact fun hc => hw hc.symm
        have huv : ¬ u = v := fun hc => hvu hc.symm
        simp [appendToUser, hw, userSeq_cons, hvu, huv, h, ih]
      · simp [appendToUser, hw, userSeq_cons, h, ih]

theorem userSeq_buildSequences_from (rows : List Rating)
    (seqs : List (Nat × List Interaction)) (u : Nat) :
    userSeq
        (rows.foldl
          (fun seqs r => appendToUser seqs r.user_id (toInteraction r)) seqs)
        u
      = userSeq seqs u
        ++ (rows.filter (fun r => r.user_id = u)).map toInteraction := by
  induction rows generalizing seqs with
  | nil => simp
  | cons r rs ih =>
    simp only [List.foldl_cons, List.filter_cons]
    rw [ih]
    by_cases h : r.user_id = u
    · simp [userSeq_appendToUser, h]
    · simp [userSeq_appendToUser, h]

/-- Grouping: before sorting, user `u`'s sequence is exactly the input-order
list of `u`'s rows. -/
theorem userSeq_buildSequences (rows : List Rating) (u : Nat) :
    userSeq (buildSequences rows) u
      = (rows.filter (fun r => r.user_id = u)).map toInteraction := by
  unfold buildSequences
  rw [userSeq_buildSequences_from]
  simp [userSeq_nil]

theorem userSeq_map_sort (seqs : List (Nat × List Interaction)) (u : Nat) :
    userSeq (seqs.map (fun p => (p.1, sortByTimestamp p.2))) u
      = sortByTimestamp (userSeq seqs u) := by
  induction seqs with
  | nil => simp [userSeq_nil, sortByTimestamp]
  | cons p ps ih =>
    obtain ⟨v, l⟩ := p
    by_cases h : v = u
    · simp [userSeq_cons, h]
    · simp [userSeq_cons, h, ih]

theorem tsLE_trans (a b c : Interaction) :
    tsLE a b → tsLE b c → tsLE a c := by
  simp only [tsLE, decide_eq_true_eq]
  omega

theorem tsLE_total (a b : Interaction) : tsLE a b || tsLE b a := by
  simp only [tsLE, Bool.or_eq_true, decide_eq_true_eq]
  omega

/-- Stability of the timestamp sort: for each timestamp value `t`, the
elements with timestamp `t` appear in the sorted output in exactly their
input order. -/
theorem sortByTimestamp_stable (l : List Interaction) (t : Nat) :
    (sortByTimestamp l).filter (fun x => x.timestamp = t)
      = l.filter (fun x => x.timestamp = t) := by
  unfold sortByTimestamp
  have hpair : (l.filter (fun x => x.timestamp = t)).Pairwise
      (fun a b => tsLE a b = true) := by
    apply List.pairwise_of_forall_mem_list
    intro a ha b hb
    have ha' := (List.mem_filter.mp ha).2
    have hb' := (List.mem_filter.mp hb).2
    simp only [decide_eq_true_eq] at ha' hb'
    simp [tsLE, ha', hb']
  have hsub : List.Sublist (l.filter (fun x => x.timestamp = t))
      (l.mergeSort tsLE) :=
    List.sublist_mergeSort tsLE_trans tsLE_total hpair (List.filter_sublist l)
  have h2 := hsub.filter (fun x => decide (x.timestamp = t))
  rw [List.filter_eq_self.mpr (fun a ha => (List.mem_filter.mp ha).2)] at h2
  have hlen :
      ((l.mergeSort tsLE).filter (fun x => decide (x.timestamp = t))).length
        = (l.filter (fun x => decide (x.timestamp = t))).length :=
    ((List.mergeSort_perm l tsLE).filter _).length_eq
  exact (List.Sublist.eq_of_length h2 hlen.symm).symm

/-- Claim C8: `get_movie_sequence_per_user` groups rows by user id — user
`u`'s sequence is a permutation of the input-order list of `u`'s rows — and
within each user's group the records are ascending by timestamp, with
timestamp ties preserving the rows' original input order (stable sort). -/
theorem claim_C8 (rows : List Rating) (u : Nat) :
    ((userSeq (get_movie_sequence_per_user rows) u).Pairwise
        (fun a b => a.timestamp ≤ b.timestamp))
    ∧ (userSeq (get_movie_sequence_per_user rows) u).Perm
        ((rows.filter (fun r => r.user_id = u)).map toInteraction)
    ∧ ∀ t : Nat,
        (userSeq (get_movie_sequence_per_user rows) u).filter
            (fun x => x.timestamp = t)
          = ((rows.filter (fun r => r.user_id = u)).map
              toInteraction).filter (fun x => x.timestamp = t) := by
  have hval : userSeq (get_movie_sequence_per_user rows) u
      = sortByTimestamp
          ((rows.filter (fun r => r.user_id = u)).map toInteraction) := by
    unfold get_movie_sequence_per_user
    rw [userSeq_map_sort, userSeq_buildSequences]
  refine ⟨?_, ?_, ?_⟩
  · rw [hval]
    have := List.sorted_mergeSort tsLE_trans tsLE_total
      ((rows.filter (fun r => r.user_id = u)).map toInteraction)
    exact this.imp (fun h => by simpa [tsLE] using h)
  · rw [hval]
    exact List.mergeSort_perm _ tsLE
  · intro t
    rw [hval]
    exact sortByTimestamp_stable _ t

/-! ### Lemmas about `compute_loss` -/

theorem eyeMatrix_eq_one (N : Nat) :
    eyeMatrix N N = (1 : Matrix (Fin N) (Fin N) ℚ) := by
  ext i j
  by_cases h : i = j
  · simp [eyeMatrix, Matrix.one_apply, h]
  · have h' : (i : Nat) ≠ (j : Nat) := fun hc => h (Fin.ext hc)
    simp [eyeMatrix, Matrix.one_apply, h, h']

theorem matmulT_eq_mul {N M D : Nat} (Q : Matrix (Fin N) (Fin D) ℚ)
    (C : Matrix (Fin M) (Fin D) ℚ) : matmulT Q C = Q * C.transpose := by
  ext i j
  simp [matmulT, Matrix.mul_apply, Matrix.transpose_apply]

/-- Claim C2: for a batch of `N` examples, `compute_loss` passes to the
categorical cross-entropy loss exactly the pair of the `N × N` identity
matrix as labels and, as scores, the matrix product of the query embeddings
with the transpose of the candidate embeddings, where candidate row `i` is
the embedding of example `i`'s label id (same order as the queries). -/
theorem claim_C2 {N D : Nat} {W : Type}
    (loss_fn :
      Matrix (Fin N) (Fin N) ℚ → Matrix (Fin N) (Fin N) ℚ → W → ℚ)
    (candidate_model : Nat → Fin D → ℚ) (y : Fin N → Nat)
    (query_embeddings : Matrix (Fin N) (Fin D) ℚ) (sample_weight : W) :
    compute_loss loss_fn candidate_model y query_embeddings sample_weight
      = loss_fn (1 : Matrix (Fin N) (Fin N) ℚ)
          (query_embeddings
            * (Matrix.of fun i => candidate_model (y i)).transpose)
          sample_weight := by
  simp only [compute_loss, eyeMatrix_eq_one, matmulT_eq_mul]

/-! ### Lemmas about `run_model_saving_test` -/

theorem assertAllClose_self (atol rtol : ℚ) (h1 : 0 ≤ atol) (h2 : 0 ≤ rtol)
    (l : List ℚ) : assertAllClose atol rtol l l = true := by
  unfold assertAllClose
  rw [Bool.and_eq_true]
  refine ⟨by simp, ?_⟩
  induction l with
  | nil => rfl
  | cons a t ih =>
    simp only [List.zip_cons_cons, List.all_cons, ih, Bool.and_true]
    rw [decide_eq_true_eq, sub_self, abs_zero]
    have hm : 0 ≤ rtol * |a| := mul_nonneg h2 (abs_nonneg a)
    linarith

/-- Claim C7: whenever the external serializer satisfies its round-trip
contract on the constructed model — reloading the saved archive restores
that model — `run_model_saving_test` succeeds: the restored model's output
on the given input is allclose (atol = rtol = 1e-6) to the original's, for
every model class, constructor arguments and input. -/
theorem claim_C7 {Model Archive Kwargs Input : Type}
    (call : Model → Input → List ℚ) (ser : Serializer Model Archive)
    (cls : Kwargs → Model) (init_kwargs : Kwargs) (input_data : Input)
    (hroundtrip :
      ser.load (ser.save (cls init_kwargs)) = cls init_kwargs) :
    run_model_saving_test call ser cls init_kwargs input_data = true := by
  simp only [run_model_saving_test, hroundtrip]
  exact assertAllClose_self _ _ (by norm_num) (by norm_num) _

/-- Claim C7, witness: the identity serializer on a model that is a plain
number, whose `call` echoes it. -/
theorem claim_C7_witness :
    run_model_saving_test (fun (m : Nat) (_ : Nat) => [(m : ℚ)])
      ⟨fun m => m, fun a => a⟩ (fun k : Nat => k) 5 0 = true :=
  claim_C7 (fun (m : Nat) (_ : Nat) => [(m : ℚ)])
    ⟨fun m => m, fun a => a⟩ (fun k : Nat => k) 5 0 rfl

/-! ### Lemmas about the mutable-list model -/

theorem Heap.read_alloc_ne (h : Heap) (v : List Interaction) (x : Nat)
    (hx : x ≠ h.next) : (h.alloc v).1.read x = h.read x := by
  simp [Heap.alloc, Heap.read, hx]

theorem Heap.read_alloc_self (h : Heap) (v : List Interaction) :
    (h.alloc v).1.read h.next = v := by
  simp [Heap.alloc, Heap.read]

theorem Heap.next_alloc (h : Heap) (v : List Interaction) :
    (h.alloc v).1.next = h.next + 1 := rfl

theorem Heap.snd_alloc (h : Heap) (v : List Interaction) :
    (h.alloc v).2 = h.next := rfl

theorem Heap.read_write_ne (h : Heap) (r : Nat) (v : List Interaction)
    (x : Nat) (hx : x ≠ r) : (h.write r v).read x = h.read x := by
  simp [Heap.write, Heap.read, hx]

theorem Heap.read_write_self (h : Heap) (r : Nat) (v : List Interaction) :
    (h.write r v).read r = v := by
  simp [Heap.write, Heap.read]

theorem Heap.next_write (h : Heap) (r : Nat) (v : List Interaction) :
    (h.write r v).next = h.next := rfl

theorem padLoopSt_read_ne (n : Nat) (h : Heap) (r x : Nat) (hx : x ≠ r) :
    (padLoopSt n h r).read x = h.read x := by
  induction n generalizing h with
  | zero => rfl
  | succ n ih => rw [padLoopSt, ih, Heap.read_write_ne _ _ _ _ hx]

theorem padLoopSt_next (n : Nat) (h : Heap) (r : Nat) :
    (padLoopSt n h r).next = h.next := by
  induction n generalizing h with
  | zero => rfl
  | succ n ih => rw [padLoopSt, ih, Heap.next_write]

theorem padLoopSt_read_self (n : Nat) (h : Heap) (r : Nat) :
    (padLoopSt n h r).read r = h.read r ++ List.replicate n padEntry := by
  induction n generalizing h with
  | zero => simp [padLoopSt]
  | succ n ih =>
    rw [padLoopSt, ih, Heap.read_write_self, List.replicate_succ]
    simp

/-- The loop body leaves every previously allocated object unchanged. -/
theorem exampleSt_fst_read (L : Nat) (h : Heap) (r i x : Nat)
    (hx : x < h.next) : ((exampleSt L h r i).1).read x = h.read x := by
  have hne : x ≠ h.next := by omega
  simp only [exampleSt, padContextSt, Heap.snd_alloc]
  rw [padLoopSt_read_ne _ _ _ _ hne]
  exact Heap.read_alloc_ne h _ x hne

theorem exampleSt_fst_next (L : Nat) (h : Heap) (r i : Nat) :
    ((exampleSt L h r i).1).next = h.next + 1 := by
  simp only [exampleSt, padContextSt]
  rw [padLoopSt_next, Heap.next_alloc]

/-- The loop body computes the same example as the pure embedding. -/
theorem exampleSt_snd (L : Nat) (h : Heap) (r i : Nat) :
    (exampleSt L h r i).2 = exampleAt L (h.read r) i := by
  simp only [exampleSt, padContextSt, exampleAt, Heap.snd_alloc,
    Heap.read_alloc_self, padLoopSt_read_self, padContext_eq_append]

theorem foldl_genLoopBody_next (L r : Nat) (is : List Nat) :
    ∀ (h : Heap) (acc : List Example),
      h.next ≤ ((is.foldl (genLoopBody L r) (h, acc)).1).next := by
  induction is with
  | nil => intro h acc; exact le_refl _
  | cons i it ih =>
    intro h acc
    simp only [List.foldl_cons, genLoopBody]
    have hstep := ih (exampleSt L h r i).1 (acc ++ [(exampleSt L h r i).2])
    rw [exampleSt_fst_next] at hstep
    omega

theorem foldl_genLoopBody_read (L r : Nat) (is : List Nat) :
    ∀ (h : Heap) (acc : List Example) (x : Nat), x < h.next →
      ((is.foldl (genLoopBody L r) (h, acc)).1).read x = h.read x := by
  induction is with
  | nil => intro h acc x _; rfl
  | cons i it ih =>
    intro h acc x hx
    simp only [List.foldl_cons, genLoopBody]
    have hx' : x < ((exampleSt L h r i).1).next := by
      rw [exampleSt_fst_next]
      omega
    rw [ih _ _ x hx', exampleSt_fst_read L h r i x hx]

theorem foldl_genLoopBody_snd (L r : Nat) (is : List Nat) :
    ∀ (h : Heap) (acc : List Example), r < h.next →
      (is.foldl (genLoopBody L r) (h, acc)).2
        = acc ++ is.map (exampleAt L (h.read r)) := by
  induction is with
  | nil => intro h acc _; simp
  | cons i it ih =>
    intro h acc hr
    simp only [List.foldl_cons, genLoopBody, List.map_cons]
    have hr' : r < ((exampleSt L h r i).1).next := by
      rw [exampleSt_fst_next]
      omega
    rw [ih _ _ hr', exampleSt_fst_read L h r i r hr, exampleSt_snd]
    simp

theorem generate_examples_st_read (L : Nat) (h : Heap) (r x : Nat)
    (hx : x < h.next) :
    ((generate_examples_from_user_sequence_st L h r).1).read x = h.read x :=
  foldl_genLoopBody_read L r _ h [] x hx

theorem generate_examples_st_next (L : Nat) (h : Heap) (r : Nat) :
    h.next ≤ ((generate_examples_from_user_sequence_st L h r).1).next :=
  foldl_genLoopBody_next L r _ h []

/-- Refinement: the mutable-list run returns the same examples as the pure
embedding run on the sequence value. -/
theorem generate_examples_st_snd (L : Nat) (h : Heap) (r : Nat)
    (hr : r < h.next) :
    (generate_examples_from_user_sequence_st L h r).2
      = generate_examples_from_user_sequence L (h.read r) := by
  unfold generate_examples_from_user_sequence_st
    generate_examples_from_user_sequence
  rw [foldl_genLoopBody_snd L r _ h [] hr]
  simp

theorem foldl_genUsersBody_next (L minLen : Nat) (ps : List (Nat × Nat)) :
    ∀ (h : Heap) (acc : List Example),
      h.next ≤ ((ps.foldl (genUsersBody L minLen) (h, acc)).1).next := by
  induction ps with
  | nil => intro h acc; exact le_refl _
  | cons p pt ih =>
    intro h acc
    simp only [List.foldl_cons, genUsersBody]
    by_cases hlen : (h.read p.2).length < minLen
    · rw [if_pos hlen]
      exact ih h acc
    · rw [if_neg hlen]
      have h1 := generate_examples_st_next L h p.2
      have h2 := ih (generate_examples_from_user_sequence_st L h p.2).1
        (acc ++ (generate_examples_from_user_sequence_st L h p.2).2)
      omega

theorem foldl_genUsersBody_read (L minLen : Nat) (ps : List (Nat × Nat)) :
    ∀ (h : Heap) (acc : List Example) (x : Nat), x < h.next →
      ((ps.foldl (genUsersBody L minLen) (h, acc)).1).read x = h.read x := by
  induction ps with
  | nil => intro h acc x _; rfl
  | cons p pt ih =>
    intro h acc x hx
    simp only [List.foldl_cons, genUsersBody]
    by_cases hlen : (h.read p.2).length < minLen
    · rw [if_pos hlen]
      exact ih h acc x hx
    · rw [if_neg hlen]
      have hx' : x < ((generate_examples_from_user_sequence_st L h p.2).1).next :=
        lt_of_lt_of_le hx (generate_examples_st_next L h p.2)
      rw [ih _ _ x hx', generate_examples_st_read L h p.2 x hx]

/-- Claim C10: `generate_examples_from_user_sequences` leaves its input
unchanged — every list object allocated before the call (in particular each
user's interaction sequence: its length, element order and element
contents) holds the same value after the call, because each example's
context is built from a fresh slice copy and padding entries are appended
only to that copy. -/
theorem claim_C10 (L minLen : Nat) (h : Heap)
    (sequences : List (Nat × Nat)) (x : Nat) (hx : x < h.next) :
    ((generate_examples_from_user_sequences_st L minLen h sequences).1).read x
      = h.read x :=
  foldl_genUsersBody_read L minLen sequences h [] x hx

/-- Claim C10, witness: one user whose sequence object ref 0 holds `seqABCD`
in a store with one allocated object; after generation ref 0 is unchanged. -/
theorem claim_C10_witness :
    ((generate_examples_from_user_sequences_st 10 3
          ⟨fun r => if r = 0 then seqABCD else [], 1⟩ [(1, 0)]).1).read 0
      = (⟨fun r => if r = 0 then seqABCD else [], 1⟩ : Heap).read 0 :=
  claim_C10 10 3 ⟨fun r => if r = 0 then seqABCD else [], 1⟩ [(1, 0)] 0
    (by decide)

end SeqRetrieval
